import Mathlib

/-!
Shallow embedding of the visual-novel engine runtime
(`engine/src/lib.rs` and `leg_archive/src/lib.rs`).

Strings are manipulated as `List Char`; Rust byte-wise lexicographic
comparison of UTF-8 strings coincides with codepoint-wise comparison,
which is what the char-level order below computes.  Panics (`unwrap`,
`panic!`, `unimplemented!`, `unreachable!`) are modelled as `none`.
File input is abstracted as a map from paths (component lists) to the
list of lines of the file.
-/

namespace VN

/-- Rust `char::is_ascii_whitespace`: space, tab, LF, FF, CR. -/
def isAsciiWs (c : Char) : Bool :=
  c = ' ' || c = '\t' || c = '\n' || c = '\x0c' || c = '\r'

/-- Rust `char::is_whitespace` (Unicode `White_Space`), used by `trim`
and `trim_start`. -/
def rustIsWs (c : Char) : Bool :=
  c.val = 0x09 || c.val = 0x0a || c.val = 0x0b || c.val = 0x0c ||
  c.val = 0x0d || c.val = 0x20 || c.val = 0x85 || c.val = 0xa0 ||
  c.val = 0x1680 || (0x2000 ≤ c.val && c.val ≤ 0x200a) ||
  c.val = 0x2028 || c.val = 0x2029 || c.val = 0x202f ||
  c.val = 0x205f || c.val = 0x3000

/-- Rust `str::trim_start`. -/
def trimStart (cs : List Char) : List Char := cs.dropWhile rustIsWs

/-- Rust `str::trim`. -/
def trim (cs : List Char) : List Char :=
  ((cs.dropWhile rustIsWs).reverse.dropWhile rustIsWs).reverse

/--
One `next()` call on a Rust `str::split` iterator over the ASCII
whitespace predicate.  The iterator state is `none` once exhausted
(`as_str` then returns the empty string), `some cs` when `cs` is the
not-yet-consumed remainder.  Returns the token together with the next
state.
-/
def splitNext (cs : List Char) : List Char × Option (List Char) :=
  let tok := cs.takeWhile (fun c => !isAsciiWs c)
  match cs.dropWhile (fun c => !isAsciiWs c) with
  | [] => (tok, none)
  | _ :: tl => (tok, some tl)

/-- Fuel bound for the split loop; `splitWhile_fuel_stable` shows any
fuel at least this bound gives the same result, so the loop below is
the `while` loop of `split_args`, not an approximation. -/
def splitMeasure : Option (List Char) → Nat
  | none => 0
  | some cs => cs.length + 1

/--
The `while parts.len() < limit` loop of `split_args`: skip empty
tokens, push non-empty ones, stop when the iterator is exhausted or
the limit is reached.  Returns the accumulated parts and the final
iterator state.  Structural recursion on a fuel that
`splitWhile_fuel_stable` proves irrelevant once it is at least
`splitMeasure st`.
-/
def splitWhile (fuel limit : Nat) (parts : List (List Char)) (st : Option (List Char)) :
    List (List Char) × Option (List Char) :=
  match fuel, st with
  | _, none => (parts, none)
  | 0, some cs => (parts, some cs)
  | fuel + 1, some cs =>
    if parts.length < limit then
      match splitNext cs with
      | (tok, st1) =>
        if tok.isEmpty then splitWhile fuel limit parts st1
        else splitWhile fuel limit (parts ++ [tok]) st1
    else (parts, some cs)

/-- `split_args` from `engine/src/lib.rs`. -/
def split_args (line : List Char) (limit : Nat) : List (List Char) :=
  match splitWhile (line.length + 1) limit [] (some line) with
  | (parts, st) =>
    let rest := trimStart (match st with | none => [] | some cs => cs)
    if rest.isEmpty then parts else parts ++ [rest]

/-- `usize::from_str`: optional leading sign, then one or more ASCII
digits (the model uses unbounded `Nat`; no overflow). -/
def parseNat (cs : List Char) : Option Nat :=
  let ds := match cs with | '+' :: tl => tl | _ => cs
  if ds.isEmpty || !ds.all (·.isDigit) then none
  else some (ds.foldl (fun n c => n * 10 + (c.toNat - 48)) 0)

/-- `strip` from `engine/src/lib.rs`: `strip_prefix(c)` then
`strip_suffix(c)`, each a no-op when the edge character differs. -/
def strip (s : List Char) (c : Char) : List Char :=
  let s1 := match s with
    | x :: tl => if x = c then tl else s
    | [] => s
  if s1.getLast? = some c then s1.dropLast else s1

/-- The escape-collapsing loop of `unescape`: a backslash seen in the
unescaped state is dropped and the following character emitted
verbatim. -/
def unescapeChars : List Char → Bool → List Char
  | [], _ => []
  | c :: cs, escaped =>
    if c = '\\' && !escaped then unescapeChars cs true
    else c :: unescapeChars cs false

/-- `unescape` from `engine/src/lib.rs`. -/
def unescape (s : List Char) : List Char :=
  unescapeChars (strip (strip s '"') '\'') false

/-- Rust `str::split_once(" ")`: split at the first space. -/
def splitOnceSpace (s : List Char) : Option (List Char × List Char) :=
  if s.contains ' ' then
    some (s.takeWhile (· ≠ ' '), (s.dropWhile (· ≠ ' ')).tail)
  else none

/-- `parse_text` from `engine/src/lib.rs`. -/
def parse_text (s : List Char) : Option (List Char) × List Char :=
  if s.contains '"' then
    match splitOnceSpace s with
    | some (a, b) => (some (unescape a), unescape b)
    | none => (none, unescape s)
  else (none, unescape s)

/-- `Operator` from `engine/src/lib.rs`. -/
inductive Operator
  | equal
  | notEqual
  | less
  | lessEqual
deriving DecidableEq, Repr

/-- `VarOrConst` from `engine/src/lib.rs`. -/
structure VarOrConst where
  is_ref : Bool
  name : String
  index : Option Nat
deriving DecidableEq, Repr

/-- `Label` from `engine/src/lib.rs`. -/
inductive Label
  | offset (n : Nat)
  | indexed (n : Nat)
  | named (s : String)
deriving DecidableEq, Repr

/-- `Instr` from `engine/src/lib.rs`. -/
inductive Instr
  | cleartext
  | setvar (target : VarOrConst) (value : String)
  | gsetvar (target : VarOrConst) (value : String)
  | bgload (file : VarOrConst) (time : Option Nat)
  | setimg (file : VarOrConst) (x y : Nat)
  | delay (units : Nat)
  | branch (lhs : VarOrConst) (op : Operator) (rhs : String) (elsePc : Nat)
  | text (who : Option String) (what : String)
  | goto (target : Label)
  | sound (file : String) (arg : Option Nat)
  | music (file : String)
  | choice (alts : List VarOrConst)
  | jump (file : String)
deriving DecidableEq, Repr

/-- `Script` from `engine/src/lib.rs`. -/
structure Script where
  code : List Instr
deriving DecidableEq, Repr

/-- `parse_var_ref` from `engine/src/lib.rs`; `none` models the panics
on a missing `[` before a trailing `]` or an unparsable index. -/
def parse_var_ref (s : List Char) : Option VarOrConst :=
  let (dollar, s) := match s with
    | '$' :: tl => (true, tl)
    | _ => (false, s)
  match s.getLast? with
  | some ']' =>
    let iks := s.dropLast
    if iks.contains '[' then
      let name := iks.takeWhile (· ≠ '[')
      let idxs := (iks.dropWhile (· ≠ '[')).tail
      match parseNat idxs with
      | some i => some ⟨dollar, name.asString, some i⟩
      | none => none
    else none
  | _ => some ⟨dollar, s.asString, none⟩

/-- The comparison-operator table of the `if` arm of `load_script`. -/
def parseOp (s : String) : Option Operator :=
  if s = "==" then some .equal
  else if s = "!=" then some .notEqual
  else if s = "<" then some .less
  else if s = "<=" then some .lessEqual
  else none

/-- Rust `str::split("|")`: substrings between bars, keeping empties;
an empty input yields one empty token. -/
def splitOnBar : List Char → List (List Char)
  | [] => [[]]
  | '|' :: tl => [] :: splitOnBar tl
  | c :: tl =>
    match splitOnBar tl with
    | t :: ts => (c :: t) :: ts
    | [] => [[c]]

/-- `Iterator::collect` into `Option`: all-or-nothing map. -/
def mapOption (f : α → Option β) : List α → Option (List β)
  | [] => some []
  | x :: xs =>
    match f x, mapOption f xs with
    | some y, some ys => some (y :: ys)
    | _, _ => none

/-- `Emitter` from `engine/src/lib.rs`; the label table is an
association list with most-recent-first lookup, matching `HashMap`
insert-overwrites semantics. -/
structure Emitter where
  code : List Instr
  last_branch : Option Nat
  labels : List (Label × Nat)
deriving Repr

def Emitter.new : Emitter := ⟨[], none, []⟩

/-- `Emitter::emit`. -/
def Emitter.emit (e : Emitter) (i : Instr) : Emitter :=
  { e with code := e.code ++ [i] }

/-- `Emitter::begin_branch`. -/
def Emitter.begin_branch (e : Emitter) : Emitter :=
  { e with last_branch := some e.code.length }

/-- `Emitter::end_branch`; `none` models the `unwrap` on a missing
open branch and the `unimplemented!` on a non-branch instruction. -/
def Emitter.end_branch (e : Emitter) : Option Emitter :=
  match e.last_branch with
  | none => none
  | some i =>
    match e.code.get? i with
    | some (.branch lhs op rhs _) =>
      some { e with code := e.code.set i (.branch lhs op rhs e.code.length) }
    | _ => none

/-- `Emitter::make_label`. -/
def Emitter.make_label (e : Emitter) (l : Label) : Emitter :=
  { e with labels := (l, e.code.length) :: e.labels }

def lookupLabel (labels : List (Label × Nat)) (l : Label) : Option Nat :=
  (labels.find? (fun p => p.1 = l)).map (·.2)

/-- A goto/label identifier: `@`-prefixed parses as `Indexed`, all
others as `Named`. -/
def parseLabelIdent (s : String) : Option Label :=
  match s.data with
  | '@' :: tl =>
    match parseNat tl with
    | some n => some (.indexed n)
    | none => none
  | _ => some (.named s)

/--
One dispatch step of `load_script` on an already trimmed non-empty
line; `none` models every compile-time panic.  The Rust `match` on the
token slice is rendered as a dispatch on the first token — the
patterns' heads are pairwise distinct, so the two are equivalent — with
each keyword's arity shapes matched in source order underneath.
-/
def compileLine (e : Emitter) (line : List Char) : Option Emitter :=
  match (split_args line 3).map List.asString with
  | [] => none
  | w :: rest =>
    if w = "cleartext" then some (e.emit .cleartext)
    else if w = "gsetvar" then
      match rest with
      | [name, op, value] =>
        if op = "=" || op = "-" || op = "+" then
          match parse_var_ref name.data with
          | some v => some (e.emit (.gsetvar v (unescape value.data).asString))
          | none => none
        else none
      | _ => none
    else if w = "setvar" then
      match rest with
      | [name, op, value] =>
        if op = "=" || op = "-" || op = "+" then
          match parse_var_ref name.data with
          | some v => some (e.emit (.setvar v (unescape value.data).asString))
          | none => none
        else none
      | [name, value] =>
        match parse_var_ref name.data with
        | some v => some (e.emit (.setvar v (unescape value.data).asString))
        | none => none
      | _ => none
    else if w = "bgload" then
      match rest with
      | [vref] =>
        match parse_var_ref vref.data with
        | some v => some (e.emit (.bgload v none))
        | none => none
      | [vref, time] =>
        match parse_var_ref vref.data, parseNat time.data with
        | some v, some t => some (e.emit (.bgload v (some t)))
        | _, _ => none
      | _ => none
    else if w = "setimg" then
      match rest with
      | [vref, x, y] =>
        match parse_var_ref vref.data, parseNat x.data, parseNat y.data with
        | some v, some xv, some yv => some (e.emit (.setimg v xv yv))
        | _, _, _ => none
      | _ => none
    else if w = "delay" then
      match rest with
      | [d] =>
        match parseNat d.data with
        | some dv => some (e.emit (.delay dv))
        | none => none
      | _ => none
    else if w = "if" then
      match rest with
      | [vref, op, val] =>
        match parse_var_ref vref.data, parseOp op with
        | some v, some o =>
          some (e.begin_branch.emit
            (.branch { v with is_ref := true } o val e.code.length))
        | _, _ => none
      | _ => none
    else if w = "fi" then
      match rest with
      | [] => e.end_branch
      | _ => none
    else if w = "text" then
      match parse_text (trim (line.drop 4)) with
      | (who, what) => some (e.emit (.text (who.map List.asString) what.asString))
    else if w = "goto" then
      match rest with
      | [label] =>
        match parseLabelIdent label with
        | some l => some (e.emit (.goto l))
        | none => none
      | _ => none
    else if w = "label" then
      match rest with
      | [ident] =>
        match parseLabelIdent ident with
        | some l => some (e.make_label l)
        | none => none
      | _ => none
    else if w = "sound" then
      match rest with
      | [file] => some (e.emit (.sound file none))
      | [file, param] =>
        match parseNat param.data with
        | some p => some (e.emit (.sound file (some p)))
        | none => none
      | _ => none
    else if w = "music" then
      match rest with
      | [file] => some (e.emit (.music file))
      | _ => none
    else if w = "choice" then
      match mapOption parse_var_ref (splitOnBar (trimStart (line.drop 6))) with
      | some alts => some (e.emit (.choice alts))
      | none => none
    else if w = "jump" then
      match rest with
      | [target] => some (e.emit (.jump target))
      | _ => none
    else none

/-- The line loop of `load_script`: trim, skip blanks, dispatch. -/
def compileLines (e : Emitter) : List String → Option Emitter
  | [] => some e
  | l :: ls =>
    let t := trim l.data
    if t.isEmpty then compileLines e ls
    else
      match compileLine e t with
      | some e1 => compileLines e1 ls
      | none => none

/-- The goto-rewriting pass of `Emitter::into_script` on one
instruction; `none` models the `panic!` on an unknown label. -/
def resolveInstr (labels : List (Label × Nat)) : Instr → Option Instr
  | .goto target =>
    match lookupLabel labels target with
    | some n => some (.goto (.offset n))
    | none => none
  | i => some i

/-- `Emitter::into_script`. -/
def Emitter.into_script (e : Emitter) : Option Script :=
  (mapOption (resolveInstr e.labels) e.code).map Script.mk

/-- `load_script` (the free function) on the list of lines of the
script file. -/
def compile (lines : List String) : Option Script :=
  match compileLines Emitter.new lines with
  | some e => e.into_script
  | none => none

/-! ## Interpreter state -/

/-- `HashMap<String, HashMap<usize, String>>`, as nested association
lists with most-recent-first lookup (insert shadows). -/
def Memory := List (String × List (Nat × String))
deriving DecidableEq

def memGet (m : Memory) (name : String) (idx : Nat) : Option String :=
  match (List.find? (fun p => p.1 = name) m).map (·.2) with
  | none => none
  | some inner => (List.find? (fun p => p.1 = idx) inner).map (·.2)

/-- `memory.entry(name).or_insert_with(HashMap::new).insert(index, val)`. -/
def memInsert (m : Memory) (name : String) (idx : Nat) (val : String) : Memory :=
  let inner := match (List.find? (fun p => p.1 = name) m).map (·.2) with
    | none => []
    | some inner => inner
  (name, (idx, val) :: inner) :: m

/-- `EngineState::insert`; `none` models the `unimplemented!` on a
reference target. -/
def insertVar (m : Memory) (v : VarOrConst) (val : String) : Option Memory :=
  if v.is_ref then none
  else some (memInsert m v.name (v.index.getD 0) val)

/-- `EngineState::get_var`. -/
def get_var (m : Memory) (v : VarOrConst) : Option String :=
  if !v.is_ref then some v.name
  else memGet m v.name (v.index.getD 0)

/-- A filesystem path, as its list of components; `PathBuf::join`
appends a component. -/
abbrev FsPath := List String

/-- The ambient filesystem: maps a path to the lines of the file. -/
abbrev FS := FsPath → Option (List String)

/-- `EngineState` from `engine/src/lib.rs`.  The script cache is an
association list with most-recent-first lookup. -/
structure EngineState where
  scripts : List (String × Script)
  memory : Memory
  pc : Nat
  current_script : String
  directory : FsPath
  last_music : Option String
  last_background : Option FsPath
  last_main_image : Option FsPath
  last_date_image : Option FsPath
  pc_to_save : Nat
deriving DecidableEq

/-- `SerializedState` from `engine/src/lib.rs` (the JSON encode/decode
round trip is abstracted away). -/
structure SerializedState where
  memory : Memory
  current_script : String
  pc : Nat
  last_music : Option String
  last_background : Option FsPath
  last_main_image : Option FsPath
  last_date_image : Option FsPath
deriving DecidableEq

def lookupScript (scripts : List (String × Script)) (name : String) : Option Script :=
  (List.find? (fun p => p.1 = name) scripts).map (·.2)

/-- `EngineState::load_script`; `none` models the `unwrap` on a
missing or malformed script file. -/
def EngineState.run_load_script (fs : FS) (st : EngineState) (name : String) :
    Option EngineState :=
  match fs (st.directory ++ ["Scripts", name]) with
  | none => none
  | some lines =>
    match compile lines with
    | none => none
    | some sc =>
      some { st with
        scripts := (name, sc) :: st.scripts
        current_script := name
        pc := 0 }

/-- `EngineState::new`. -/
def EngineState.new (fs : FS) (directory : FsPath) : Option EngineState :=
  EngineState.run_load_script fs
    { scripts := []
      memory := []
      pc := 0
      current_script := "main.scr"
      directory := directory
      last_music := none
      last_background := none
      last_date_image := none
      last_main_image := none
      pc_to_save := 0 }
    "main.scr"

/-- `EngineState::set_choice`. -/
def EngineState.run_set_choice (st : EngineState) (index : Nat) : Option EngineState :=
  (insertVar st.memory ⟨false, "selected", none⟩ (toString (index + 1))).map
    (fun m => { st with memory := m })

/-- `EngineState::save`, as the record it serializes. -/
def EngineState.save (st : EngineState) : SerializedState :=
  { pc := st.pc_to_save
    last_music := st.last_music
    last_background := st.last_background
    current_script := st.current_script
    memory := st.memory
    last_date_image := st.last_date_image
    last_main_image := st.last_main_image }

/-- `ImageSlot` from `engine/src/lib.rs`. -/
inductive ImageSlot
  | Date
  | Main
deriving DecidableEq, Repr

/-- `StepResult` from `engine/src/lib.rs`. -/
inductive StepResult
  | Clear
  | Continue
  | Exit
  | Jump (file : String)
  | Choice (alts : List String)
  | Text (who : Option String) (what : String)
  | Background (path : FsPath)
  | Image (path : FsPath) (slot : ImageSlot) (x y : Nat)
  | Sound (file : String)
  | Music (file : String)
deriving DecidableEq, Repr

/-- `EngineState::load`: recompile the referenced script, restore the
serialized fields (`pc_to_save` is not among them), and synthesize the
replay queue. -/
def EngineState.load (fs : FS) (st : EngineState) (s : SerializedState) :
    Option (List StepResult × EngineState) :=
  match EngineState.run_load_script fs st s.current_script with
  | none => none
  | some st1 =>
    let st2 := { st1 with
      pc := s.pc
      current_script := s.current_script
      memory := s.memory }
    let steps :=
      (match s.last_background with
        | some b => [StepResult.Background b]
        | none => []) ++
      (match s.last_music with
        | some m => [StepResult.Music m]
        | none => []) ++
      (match s.last_main_image with
        | some i => [StepResult.Image i .Main 0 0]
        | none => []) ++
      (match s.last_date_image with
        | some i => [StepResult.Image i .Date 0 0]
        | none => [])
    some (steps, st2)

/-- Codepoint-wise lexicographic strict order; for UTF-8 encoded
strings this coincides with Rust byte-wise `str` comparison. -/
def lexLt : List Char → List Char → Bool
  | [], [] => false
  | [], _ :: _ => true
  | _ :: _, [] => false
  | a :: as, b :: bs =>
    if a.val < b.val then true
    else if a.val = b.val then lexLt as bs
    else false

/-- The comparison of the `Instr::branch` arm of `step`. -/
def evalOp (op : Operator) (l r : String) : Bool :=
  match op with
  | .equal => l = r
  | .notEqual => l ≠ r
  | .less => lexLt l.data r.data
  | .lessEqual => lexLt l.data r.data || l = r

/-- `step` from `engine/src/lib.rs`; `none` models the runtime panics
(missing script, absent cell behind an `unwrap`, non-offset goto). -/
def step (st : EngineState) : Option (StepResult × EngineState) :=
  match lookupScript st.scripts st.current_script with
  | none => none
  | some sc =>
    match sc.code.get? st.pc with
    | none => some (.Exit, st)
    | some i =>
      match i with
      | .cleartext => some (.Clear, { st with pc := st.pc + 1 })
      | .gsetvar v val =>
        match insertVar st.memory v val with
        | some m => some (.Continue, { st with memory := m, pc := st.pc + 1 })
        | none => none
      | .setvar v val =>
        match insertVar st.memory v val with
        | some m => some (.Continue, { st with memory := m, pc := st.pc + 1 })
        | none => none
      | .bgload f _ =>
        match get_var st.memory f with
        | some name =>
          let path := st.directory ++ ["CG", name]
          some (.Background path,
            { st with pc := st.pc + 1, last_background := some path })
        | none => none
      | .setimg f x y =>
        match get_var st.memory f with
        | some name =>
          let path := st.directory ++ ["CGAlt", name]
          if f.name = "DATEIMAGE" then
            some (.Image path .Date x y,
              { st with pc := st.pc + 1, last_date_image := some path })
          else
            some (.Image path .Main x y,
              { st with pc := st.pc + 1, last_main_image := some path })
        | none => none
      | .delay _ => some (.Continue, { st with pc := st.pc + 1 })
      | .branch lhs op rhs elsePc =>
        match get_var st.memory lhs with
        | some v =>
          some (.Continue,
            { st with pc := if evalOp op v rhs then st.pc + 1 else elsePc })
        | none => none
      | .text who what =>
        some (.Text who what, { st with pc_to_save := st.pc, pc := st.pc + 1 })
      | .goto target =>
        match target with
        | .offset n => some (.Continue, { st with pc := n })
        | _ => none
      | .sound f _ => some (.Sound f, { st with pc := st.pc + 1 })
      | .music f =>
        some (.Music f, { st with pc := st.pc + 1, last_music := some f })
      | .choice alts =>
        let st1 := { st with pc_to_save := st.pc, pc := st.pc + 1 }
        match st1.run_set_choice 0 with
        | some st2 =>
          match mapOption (get_var st2.memory) alts with
          | some resolved => some (.Choice resolved, st2)
          | none => none
        | none => none
      | .jump f => some (.Jump f, st)

/-- Iterate `step` `n` times, collecting the results; `none` if any
step panics. -/
def runN : Nat → EngineState → Option (List StepResult × EngineState)
  | 0, st => some ([], st)
  | n + 1, st =>
    match step st with
    | none => none
    | some (r, st1) =>
      match runN n st1 with
      | none => none
      | some (rs, st2) => some (r :: rs, st2)

/-- The StepResults observed over `n` steps. -/
def results (n : Nat) (st : EngineState) : Option (List StepResult) :=
  (runN n st).map (·.1)

/-! ## Archive reader (`leg_archive/src/lib.rs`) -/

/-- `ArchiveEntry`: a named record with its byte range
`start..stop`. -/
structure ArchiveEntry where
  file_name : String
  start : Nat
  stop : Nat
deriving DecidableEq, Repr

/-- `Archive`: the underlying file bytes, the directory records, and
the configured case sensitivity. -/
structure Archive where
  buffer : List UInt8
  files : List ArchiveEntry
  case_sensitive : Bool

/-- Rust `u8::to_ascii_lowercase`, lifted to chars (non-ASCII
characters are untouched in both views). -/
def lowerAscii (c : Char) : Char :=
  if 'A' ≤ c && c ≤ 'Z' then Char.ofNat (c.toNat + 32) else c

/-- Rust `str::eq_ignore_ascii_case`. -/
def eqIgnoreAsciiCase (a b : String) : Bool :=
  a.data.map lowerAscii = b.data.map lowerAscii

/-- The name comparison `Archive::read` selects: exact when
case-sensitive, ASCII-case-insensitive otherwise. -/
def nameMatches (caseSensitive : Bool) (a b : String) : Bool :=
  if caseSensitive then a = b else eqIgnoreAsciiCase a b

/-- `Archive::read`: find the first matching record, seek, read
exactly `stop - start` bytes; `none` on a miss or short read. -/
def Archive.read (ar : Archive) (name : String) : Option (List UInt8) :=
  match ar.files.find? (fun f => nameMatches ar.case_sensitive f.file_name name) with
  | none => none
  | some e =>
    let len := e.stop - e.start
    if e.start + len ≤ ar.buffer.length then
      some ((ar.buffer.drop e.start).take len)
    else none

/-! ## Spec-side formulations for the unescape claim -/

/-- The escape rule as the spec words it: each `\x` emits `x` and
consumes the backslash; a trailing lone backslash is dropped. -/
def specEsc : List Char → List Char
  | [] => []
  | ['\\'] => []
  | '\\' :: x :: rest => x :: specEsc rest
  | x :: rest => x :: specEsc rest

/-- The claim's literal stripping rule: one optional pair of
*matching surrounding* quotes (double preferred, else single). -/
def stripMatchingPair (s : List Char) : List Char :=
  if 2 ≤ s.length && s.head? = some '"' && s.getLast? = some '"' then
    s.tail.dropLast
  else if 2 ≤ s.length && s.head? = some '\'' && s.getLast? = some '\'' then
    s.tail.dropLast
  else s

/-- `unescape` as claim C6 words it: strip one optional matching
surrounding pair of quotes, then collapse escapes. -/
def unescapeClaim (s : List Char) : List Char :=
  specEsc (stripMatchingPair s)

/-- Strip one optional leading occurrence of `c`. -/
def stripLead (c : Char) : List Char → List Char
  | [] => []
  | x :: tl => if x = c then tl else x :: tl

/-- Strip one optional trailing occurrence of `c`. -/
def stripTrail (c : Char) (s : List Char) : List Char :=
  (stripLead c s.reverse).reverse

/-- `unescape` as amended: strip one optional leading and one
optional trailing double quote independently, then likewise for
single quotes, then collapse escapes. -/
def unescapeAmendedSpec (s : List Char) : List Char :=
  specEsc (stripTrail '\'' (stripLead '\'' (stripTrail '"' (stripLead '"' s))))

/-- The replay queue `EngineState::load` synthesizes. -/
def replayOf (s : SerializedState) : List StepResult :=
  (match s.last_background with
    | some b => [StepResult.Background b]
    | none => []) ++
  (match s.last_music with
    | some m => [StepResult.Music m]
    | none => []) ++
  (match s.last_main_image with
    | some i => [StepResult.Image i .Main 0 0]
    | none => []) ++
  (match s.last_date_image with
    | some i => [StepResult.Image i .Date 0 0]
    | none => [])

def c9fs : FS := fun p =>
  if p = ["d", "Scripts", "main.scr"] then some ["text a"] else none

def c9sc : Script := ⟨[.text none "a"]⟩

def c9st : EngineState :=
  { scripts := [("main.scr", c9sc)]
    memory := []
    pc := 1
    current_script := "main.scr"
    directory := ["d"]
    last_music := none
    last_background := none
    last_main_image := none
    last_date_image := none
    pc_to_save := 7 }

/-- An engine state that already carries mirror values before a load,
to expose that `load` does not overwrite them. -/
def c9stm : EngineState :=
  { c9st with
    last_music := some "old"
    last_background := some ["d", "CG", "oldbg.png"] }

/-- A save record whose mirrors differ from the engine's. -/
def c9serm : SerializedState :=
  { memory := [("x", [(0, "5")])]
    current_script := "main.scr"
    pc := 3
    last_music := some "new"
    last_background := none
    last_main_image := some ["d", "CGAlt", "new.png"]
    last_date_image := none }

def c9outm : List StepResult × EngineState :=
  ([.Music "new", .Image ["d", "CGAlt", "new.png"] .Main 0 0],
   { c9stm with
      scripts := ("main.scr", c9sc) :: c9stm.scripts
      current_script := "main.scr"
      pc := 3
      memory := [("x", [(0, "5")])] })

def c10ser : SerializedState :=
  { memory := []
    current_script := "main.scr"
    pc := 0
    last_music := some "m.ogg"
    last_background := some ["d", "CG", "bg.png"]
    last_main_image := some ["d", "CGAlt", "img.png"]
    last_date_image := none }

def c10out : List StepResult × EngineState :=
  ([.Background ["d", "CG", "bg.png"], .Music "m.ogg",
    .Image ["d", "CGAlt", "img.png"] .Main 0 0],
   { c9st with
      scripts := ("main.scr", c9sc) :: c9st.scripts
      current_script := "main.scr"
      pc := 0
      memory := [] })

def c8ar : Archive :=
  { buffer := [10, 20, 30, 40, 50]
    files := [⟨"A.txt", 1, 4⟩, ⟨"a.TXT", 0, 2⟩]
    case_sensitive := false }

def c3sc : Script := ⟨[.branch ⟨true, "x", none⟩ .less "9" 0]⟩

def c3st : EngineState :=
  { scripts := [("main.scr", c3sc)]
    memory := [("x", [(0, "10")])]
    pc := 0
    current_script := "main.scr"
    directory := ["d"]
    last_music := none
    last_background := none
    last_main_image := none
    last_date_image := none
    pc_to_save := 0 }

def c7fs : FS := fun p =>
  if p = ["d", "Scripts", "main.scr"] then
    some ["choice A|B|C", "text \"$selected\""]
  else none

/-- The two-step run of the C7 scenario: the first and second
StepResults and the `selected` cell afterwards. -/
def c7run : Option (StepResult × StepResult × Option String) := do
  let e0 ← EngineState.new c7fs ["d"]
  let (r1, e1) ← step e0
  let (r2, e2) ← step e1
  some (r1, r2, memGet e2.memory "selected" 0)

def c4st : EngineState :=
  { scripts := [("main.scr", ⟨[.branch ⟨true, "x", none⟩ .equal "1" 0,
                               .text none "a"]⟩)]
    memory := [("x", [(0, "2")])]
    pc := 0
    current_script := "main.scr"
    directory := ["d"]
    last_music := none
    last_background := none
    last_main_image := none
    last_date_image := none
    pc_to_save := 0 }

/-- The amended well-formedness of one compiled instruction: resolved
`Goto` offsets and `Branch` else-targets lie within
`[0, code.len()]` (the upper bound is inclusive: a label recorded at
code-end resolves to `code.len()`). -/
def instrOk (len : Nat) : Instr → Prop
  | .goto (.offset n) => n ≤ len
  | .goto (.indexed _) => False
  | .goto (.named _) => False
  | .branch _ _ _ t => t ≤ len
  | _ => True

/-- Emitter-level bound: every already-emitted `Branch` else-target is
at most the current code length. -/
def branchBound (len : Nat) : Instr → Prop
  | .branch _ _ _ t => t ≤ len
  | _ => True

/-- The compile-time invariant: label offsets and branch else-targets
never exceed the current code length. -/
def EmInv (e : Emitter) : Prop :=
  (∀ l n, lookupLabel e.labels l = some n → n ≤ e.code.length) ∧
  (∀ i ∈ e.code, branchBound e.code.length i)

def c2fs : FS := fun p =>
  if p = ["d", "Scripts", "main.scr"] then some ["goto x", "label x"] else none

def c2sc : Script := ⟨[.goto (.offset 1)]⟩

def c2st : EngineState :=
  { scripts := [("main.scr", c2sc)]
    memory := []
    pc := 0
    current_script := "main.scr"
    directory := ["d"]
    last_music := none
    last_background := none
    last_main_image := none
    last_date_image := none
    pc_to_save := 0 }

/-- Observational equivalence of engine states: equal on every
component `step` reads (the current script's code, memory, pc, the
current script name and the directory).  The mirrors and
`pc_to_save` are excluded: `step` never reads them. -/
def obsEq (a b : EngineState) : Prop :=
  lookupScript a.scripts a.current_script =
    lookupScript b.scripts b.current_script ∧
  a.memory = b.memory ∧ a.pc = b.pc ∧
  a.current_script = b.current_script ∧ a.directory = b.directory

/-- The engine state `load` produces from the save of `st` into a
fresh engine `e0`, when `st`'s current script compiles to `sc`. -/
def loadedAfterSave (e0 st : EngineState) (sc : Script) : EngineState :=
  { e0 with
    scripts := (st.current_script, sc) :: e0.scripts
    current_script := st.current_script
    pc := st.pc_to_save
    memory := st.memory }

/-- The state after the re-emitting step that follows a reload. -/
def steppedAfterLoad (e0 st : EngineState) (sc : Script) : EngineState :=
  { loadedAfterSave e0 st sc with
    pc_to_save := st.pc_to_save
    pc := st.pc_to_save + 1 }

def c1fs : FS := fun p =>
  if p = ["d", "Scripts", "main.scr"] then some ["text a", "text b"] else none

def c1sc : Script := ⟨[.text none "a", .text none "b"]⟩

def c1e0 : EngineState :=
  { scripts := [("main.scr", c1sc)]
    memory := []
    pc := 0
    current_script := "main.scr"
    directory := ["d"]
    last_music := none
    last_background := none
    last_main_image := none
    last_date_image := none
    pc_to_save := 0 }

def c1e1 : EngineState := { c1e0 with pc := 1 }

/-- The end-to-end C1 scenario: run until the first `Text`, save,
reload into a fresh engine, and compare the next step after the
reload with the next step of the original run. -/
def c1run : Option (List StepResult × StepResult × StepResult) := do
  let e0 ← EngineState.new c1fs ["d"]
  let (r1, e1) ← step e0
  if r1 = .Text none "a" then
    let fresh ← EngineState.new c1fs ["d"]
    let (replay, e2) ← EngineState.load c1fs fresh (EngineState.save e1)
    let (r2, _) ← step e2
    let (r3, _) ← step e1
    some (replay, r2, r3)
  else none

/-! ## Theorems -/

theorem splitNext_measure (cs tok : List Char) (tl : List Char)
    (h : splitNext cs = (tok, some tl)) : tl.length < cs.length := by
  unfold splitNext at h
  have hsub : (cs.dropWhile (fun c => !isAsciiWs c)).length ≤ cs.length :=
    (List.dropWhile_sublist _).length_le
  cases hdw : cs.dropWhile (fun c => !isAsciiWs c) with
  | nil => rw [hdw] at h; simp at h
  | cons x tl2 =>
    rw [hdw] at h
    simp only [Prod.mk.injEq, Option.some.injEq] at h
    rw [hdw] at hsub
    obtain ⟨h1, h2⟩ := h
    subst h2
    simp only [List.length_cons] at hsub
    omega

theorem splitNext_measure_le {cs : List Char} {tok : List Char}
    {st1 : Option (List Char)} (h : splitNext cs = (tok, st1)) :
    splitMeasure st1 ≤ cs.length := by
  cases st1 with
  | none => simp [splitMeasure]
  | some tl => exact splitNext_measure cs tok tl h

theorem splitWhile_fuel_stable :
    ∀ (n m limit : Nat) (parts : List (List Char)) (st : Option (List Char)),
      splitMeasure st ≤ n → splitMeasure st ≤ m →
      splitWhile n limit parts st = splitWhile m limit parts st := by
  intro n
  induction n with
  | zero =>
    intro m limit parts st hn _
    cases st with
    | none => cases m <;> rfl
    | some cs => simp [splitMeasure] at hn
  | succ n ih =>
    intro m limit parts st hn hm
    cases st with
    | none => cases m <;> rfl
    | some cs =>
      cases m with
      | zero => simp [splitMeasure] at hm
      | succ m =>
        simp only [splitWhile]
        cases hsn : splitNext cs with
        | mk tok st1 =>
          have hst1 : splitMeasure st1 ≤ cs.length := splitNext_measure_le hsn
          have h1 : splitMeasure st1 ≤ n := by
            simp [splitMeasure] at hn; omega
          have h2 : splitMeasure st1 ≤ m := by
            simp [splitMeasure] at hm; omega
          by_cases hlt : parts.length < limit
          · simp only [if_pos hlt]
            by_cases he : tok.isEmpty
            · simp only [if_pos he]; exact ih m limit parts st1 h1 h2
            · simp only [if_neg he]; exact ih m limit (parts ++ [tok]) st1 h1 h2
          · simp only [if_neg hlt]

/-! ## Helper lemmas -/

theorem mapOption_length {f : α → Option β} :
    ∀ {l : List α} {l2 : List β}, mapOption f l = some l2 → l2.length = l.length := by
  intro l
  induction l with
  | nil => intro l2 h; simp only [mapOption, Option.some.injEq] at h; subst h; rfl
  | cons x xs ih =>
    intro l2 h
    simp only [mapOption] at h
    cases hx : f x with
    | none => rw [hx] at h; exact absurd h (by simp)
    | some y =>
      rw [hx] at h
      cases hxs : mapOption f xs with
      | none => rw [hxs] at h; exact absurd h (by simp)
      | some ys =>
        rw [hxs] at h
        simp only [Option.some.injEq] at h
        subst h
        simp [ih hxs]

theorem mapOption_mem {f : α → Option β} :
    ∀ {l : List α} {l2 : List β}, mapOption f l = some l2 →
      ∀ y ∈ l2, ∃ x ∈ l, f x = some y := by
  intro l
  induction l with
  | nil =>
    intro l2 h
    simp only [mapOption, Option.some.injEq] at h
    subst h
    intro y hy
    simp at hy
  | cons x xs ih =>
    intro l2 h
    simp only [mapOption] at h
    cases hx : f x with
    | none => rw [hx] at h; exact absurd h (by simp)
    | some y0 =>
      rw [hx] at h
      cases hxs : mapOption f xs with
      | none => rw [hxs] at h; exact absurd h (by simp)
      | some ys =>
        rw [hxs] at h
        simp only [Option.some.injEq] at h
        subst h
        intro y hy
        rcases List.mem_cons.1 hy with h1 | h2
        · exact ⟨x, List.mem_cons_self _ _, h1 ▸ hx⟩
        · obtain ⟨x1, hx1, hfx1⟩ := ih hxs y h2
          exact ⟨x1, List.mem_cons_of_mem _ hx1, hfx1⟩

/-- Unfolding of a successful `run_load_script`. -/
theorem run_load_script_spec {fs : FS} {st : EngineState} {name : String}
    {st1 : EngineState}
    (h : EngineState.run_load_script fs st name = some st1) :
    ∃ lines sc, fs (st.directory ++ ["Scripts", name]) = some lines ∧
      compile lines = some sc ∧
      st1 = { st with
        scripts := (name, sc) :: st.scripts
        current_script := name
        pc := 0 } := by
  unfold EngineState.run_load_script at h
  split at h
  · exact absurd h (by simp)
  · rename_i lines hfs
    split at h
    · exact absurd h (by simp)
    · rename_i sc hc
      simp only [Option.some.injEq] at h
      exact ⟨lines, sc, hfs, hc, h.symm⟩

/-- Unfolding of a successful `load`. -/
theorem load_spec {fs : FS} {st : EngineState} {s : SerializedState}
    {out : List StepResult × EngineState}
    (h : EngineState.load fs st s = some out) :
    ∃ st1, EngineState.run_load_script fs st s.current_script = some st1 ∧
      out = (replayOf s,
        { st1 with pc := s.pc, current_script := s.current_script, memory := s.memory }) := by
  unfold EngineState.load at h
  split at h
  · exact absurd h (by simp)
  · rename_i st1 hls
    simp only [Option.some.injEq] at h
    exact ⟨st1, hls, by rw [← h]; rfl⟩

/-! ## C9: what `load` assigns and what it leaves alone -/

/-- C9 (counterexample): the engine `c9stm` has `last_music = "old"`
and no main image; the save record `c9serm` carries
`last_music = "new"` and a main-image path.  `load` succeeds, but the
engine's `last_music` is still `"old"` and its `last_main_image`
still absent: `load` does not assign the `last_*` fields from the
save file (it only reads them into the replay list). -/
theorem c9_load_mirrors_counterexample :
    EngineState.load c9fs c9stm c9serm = some c9outm ∧
    c9outm.2.last_music = some "old" ∧
    c9serm.last_music = some "new" ∧
    c9outm.2.last_main_image = none ∧
    c9serm.last_main_image = some ["d", "CGAlt", "new.png"] ∧
    (some "old" : Option String) ≠ some "new" := by
  refine ⟨by decide, by decide, by decide, by decide, by decide, by decide⟩

/-- C9 (amended): `EngineState::load` assigns `pc`, `current_script`
and `memory` from the save record, reads the saved `last_*` mirrors
only to synthesize the replay list, and leaves both the engine's own
`last_*` mirrors and `pc_to_save` unchanged; a save performed
immediately after the load therefore records the engine's pre-load
checkpoint, which is `0` for a freshly constructed engine. -/
theorem c9_load_assigns_core_not_mirrors (fs : FS) (st : EngineState)
    (s : SerializedState) (out : List StepResult × EngineState)
    (hload : EngineState.load fs st s = some out) :
    out.2.pc = s.pc ∧ out.2.current_script = s.current_script ∧
    out.2.memory = s.memory ∧
    out.2.last_music = st.last_music ∧
    out.2.last_background = st.last_background ∧
    out.2.last_main_image = st.last_main_image ∧
    out.2.last_date_image = st.last_date_image ∧
    out.1 = replayOf s ∧
    out.2.pc_to_save = st.pc_to_save ∧
    (EngineState.save out.2).pc = st.pc_to_save ∧
    ∀ dir e0, EngineState.new fs dir = some e0 → e0.pc_to_save = 0 := by
  obtain ⟨st1, hls, hout⟩ := load_spec hload
  obtain ⟨lines, sc, hfs, hc, hst1⟩ := run_load_script_spec hls
  subst hout hst1
  refine ⟨rfl, rfl, rfl, rfl, rfl, rfl, rfl, rfl, rfl, rfl, ?_⟩
  intro dir e0 hnew
  obtain ⟨lines0, sc0, _, _, he0⟩ := run_load_script_spec hnew
  subst he0
  rfl

theorem c9_load_assigns_core_not_mirrors_witness :
    c9outm.2.last_music = c9stm.last_music ∧
    c9outm.2.last_main_image = c9stm.last_main_image ∧
    c9outm.2.pc_to_save = c9stm.pc_to_save ∧
    (EngineState.save c9outm.2).pc = c9stm.pc_to_save := by
  obtain ⟨h1, h2, h3, h4, h5, h6, h7, h8, h9, h10, h11⟩ :=
    c9_load_assigns_core_not_mirrors c9fs c9stm c9serm c9outm (by decide)
  exact ⟨h4, h6, h9, h10⟩

/-! ## C10: replayed Image events always carry coordinates (0, 0) -/

/-- C10: every `Image` event in the replay list returned by
`EngineState::load` carries coordinates `(0, 0)`, even though the
`setimg` step that produced the mirrored `last_main_image` or
`last_date_image` path ran with arbitrary `x`, `y` (the mirrors store
only the path).  The second part ties a `setimg` step at `(x, y)` to
the zero-coordinate `Image` later replayed from its saved mirror. -/
theorem c10_replay_images_at_origin (fs : FS) (st : EngineState)
    (s : SerializedState) (out : List StepResult × EngineState)
    (hload : EngineState.load fs st s = some out) :
    (∀ p slot x y, StepResult.Image p slot x y ∈ out.1 → x = 0 ∧ y = 0) ∧
    (∀ (st0 : EngineState) (sc : Script) (f : VarOrConst) (x y : Nat) (name : String)
        (out0 : StepResult × EngineState),
      lookupScript st0.scripts st0.current_script = some sc →
      sc.code.get? st0.pc = some (.setimg f x y) →
      get_var st0.memory f = some name →
      f.name ≠ "DATEIMAGE" →
      step st0 = some out0 →
      out0.1 = .Image (st0.directory ++ ["CGAlt", name]) .Main x y ∧
      out0.2.last_main_image = some (st0.directory ++ ["CGAlt", name]) ∧
      StepResult.Image (st0.directory ++ ["CGAlt", name]) .Main 0 0 ∈
        replayOf out0.2.save) := by
  obtain ⟨st1, hls, hout⟩ := load_spec hload
  constructor
  · intro p slot x y hmem
    rw [hout] at hmem
    simp only [replayOf, List.mem_append] at hmem
    rcases hmem with ((h1 | h2) | h3) | h4
    · cases hb : s.last_background with
      | none => rw [hb] at h1; simp at h1
      | some b => rw [hb] at h1; simp at h1
    · cases hm : s.last_music with
      | none => rw [hm] at h2; simp at h2
      | some m => rw [hm] at h2; simp at h2
    · cases hm : s.last_main_image with
      | none => rw [hm] at h3; simp at h3
      | some i =>
        rw [hm] at h3
        simp only [List.mem_singleton, StepResult.Image.injEq] at h3
        exact ⟨h3.2.2.1, h3.2.2.2⟩
    · cases hd : s.last_date_image with
      | none => rw [hd] at h4; simp at h4
      | some i =>
        rw [hd] at h4
        simp only [List.mem_singleton, StepResult.Image.injEq] at h4
        exact ⟨h4.2.2.1, h4.2.2.2⟩
  · intro st0 sc f x y name out0 hsc hi hv hnd hstep
    unfold step at hstep
    simp only [hsc, hi, hv] at hstep
    rw [if_neg (by simpa using hnd)] at hstep
    simp only [Option.some.injEq] at hstep
    subst hstep
    refine ⟨rfl, rfl, ?_⟩
    simp [replayOf, EngineState.save]

theorem c10_replay_images_at_origin_witness :
    StepResult.Image ["d", "CGAlt", "img.png"] ImageSlot.Main 0 0 ∈ c10out.1 ∧
    ((0 : Nat) = 0 ∧ (0 : Nat) = 0) :=
  ⟨by decide,
   (c10_replay_images_at_origin c9fs c9st c10ser c10out (by decide)).1
     ["d", "CGAlt", "img.png"] ImageSlot.Main 0 0 (by decide)⟩

/-! ## C8: `Archive::read` -/

/-- C8: `Archive::read(name)` returns the content of the first
directory record whose name matches `name` — exactly when the reader
is case-sensitive, ASCII-case-insensitively otherwise — as a buffer of
exactly the record's recorded length (`stop - start`); when no record
matches, it returns `none` rather than an error. -/
theorem c8_archive_read (ar : Archive) (name : String) :
    (∀ e, ar.files.find?
        (fun f => nameMatches ar.case_sensitive f.file_name name) = some e →
      e.start + (e.stop - e.start) ≤ ar.buffer.length →
      ar.read name = some ((ar.buffer.drop e.start).take (e.stop - e.start)) ∧
      ((ar.buffer.drop e.start).take (e.stop - e.start)).length =
        e.stop - e.start) ∧
    (ar.files.find?
        (fun f => nameMatches ar.case_sensitive f.file_name name) = none →
      ar.read name = none) := by
  constructor
  · intro e hfind hlen
    constructor
    · unfold Archive.read
      rw [hfind]
      simp only [if_pos hlen]
    · simp only [List.length_take, List.length_drop]
      omega
  · intro hfind
    unfold Archive.read
    rw [hfind]

theorem c8_archive_read_witness :
    c8ar.read "a.txt" = some [20, 30, 40] ∧
    ([20, 30, 40] : List UInt8).length = 3 := by
  have h := (c8_archive_read c8ar "a.txt").1 ⟨"A.txt", 1, 4⟩ (by decide) (by decide)
  exact ⟨h.1, h.2⟩

/-! ## C5: the bounded splitter -/

/-- C5 (code bug): on the repository's own test input
`split_args("ab cd   e    f  g", 4)` the loop accumulates `limit`
tokens (not `limit - 1`) before taking the remainder, producing the
five parts `["ab","cd","e","f","g"]` — not the four parts
`["ab","cd","e","f  g"]` the `splitting` test (and the claim)
expect. -/
theorem c5_split_args_overruns_limit :
    split_args "ab cd   e    f  g".data 4 =
      ["ab".data, "cd".data, "e".data, "f".data, "g".data] ∧
    (split_args "ab cd   e    f  g".data 4).length = 5 ∧
    split_args "ab cd   e    f  g".data 4 ≠
      ["ab".data, "cd".data, "e".data, "f  g".data] ∧
    ¬ (split_args "ab cd   e    f  g".data 4).length ≤ 4 := by
  refine ⟨by decide, by decide, by decide, by decide⟩

/-! ## C3: `Branch` semantics -/

/-- C3: executing `Branch(lhs, op, rhs, elsePc)` reads the left
operand through `get_var` (fatal when the referenced cell is absent)
and compares raw strings — `==`/`!=` as string equality, `<`/`<=`
lexicographically via `lexLt`, with no numeric coercion; a true
comparison advances `pc` by one, a false one sets `pc := elsePc`, and
the result is `Continue` either way. -/
theorem c3_branch_compares_raw_strings (st : EngineState) (sc : Script)
    (lhs : VarOrConst) (op : Operator) (rhs : String) (elsePc : Nat)
    (hsc : lookupScript st.scripts st.current_script = some sc)
    (hi : sc.code.get? st.pc = some (.branch lhs op rhs elsePc)) :
    (∀ v, get_var st.memory lhs = some v →
      step st = some (.Continue,
        { st with pc := if evalOp op v rhs then st.pc + 1 else elsePc })) ∧
    (get_var st.memory lhs = none → step st = none) := by
  constructor
  · intro v hv
    unfold step
    simp only [hsc, hi, hv]
  · intro hv
    unfold step
    simp only [hsc, hi, hv]

/-- The lexicographic (not numeric) order is visible here: `"10" < "9"`
holds character-wise, so the branch is taken even though 10 > 9
numerically. -/
theorem c3_branch_compares_raw_strings_witness :
    step c3st = some (.Continue, { c3st with pc := 1 }) ∧
    evalOp .less "10" "9" = true := by
  have h := (c3_branch_compares_raw_strings c3st c3sc ⟨true, "x", none⟩
    .less "9" 0 (by decide) (by decide)).1 "10" (by decide)
  refine ⟨?_, by decide⟩
  rw [h]
  decide

/-! ## C6: `unescape` -/

/-- C6 (counterexample): on `"abc` — a leading double quote with no
matching closing quote — the code strips the unmatched quote, while
the claim's matching-pair rule keeps the string unchanged. -/
theorem c6_unescape_counterexample :
    unescape "\"abc".data = "abc".data ∧
    unescapeClaim "\"abc".data = "\"abc".data ∧
    unescape "\"abc".data ≠ unescapeClaim "\"abc".data := by
  refine ⟨by decide, by decide, by decide⟩

theorem stripLead_trail_eq (l : List Char) (c : Char) :
    (if l.getLast? = some c then l.dropLast else l) = stripTrail c l := by
  unfold stripTrail
  cases h : l.reverse with
  | nil =>
    have hl : l = [] := by simpa using congrArg List.reverse h
    subst hl
    simp [stripLead]
  | cons x tl =>
    have hl : l = tl.reverse ++ [x] := by
      have h2 := congrArg List.reverse h
      simpa using h2
    subst hl
    by_cases hxc : x = c
    · subst hxc
      simp [stripLead, List.getLast?_concat, List.dropLast_concat]
    · simp [stripLead, hxc, List.getLast?_concat]

theorem strip_eq_indep (s : List Char) (c : Char) :
    strip s c = stripTrail c (stripLead c s) := by
  cases s with
  | nil => simp [strip, stripTrail, stripLead]
  | cons x tl =>
    by_cases hxc : x = c
    · simp only [strip, stripLead, if_pos hxc]
      exact stripLead_trail_eq tl c
    · simp only [strip, stripLead, if_neg hxc]
      exact stripLead_trail_eq (x :: tl) c

theorem unescapeChars_eq_specEsc : ∀ cs : List Char,
    unescapeChars cs false = specEsc cs := by
  intro cs
  induction cs using specEsc.induct with
  | case1 => rfl
  | case2 => rfl
  | case3 x rest ih => simp [unescapeChars, specEsc, ih]
  | case4 x rest h1 h2 ih =>
    have hx : x ≠ '\\' := by
      intro hc
      cases hr : rest with
      | nil => exact h1 hc hr
      | cons y ys => exact h2 y ys hc hr
    simp [unescapeChars, specEsc, hx, ih]

/-- C6 (amended): `unescape` strips one optional leading and one
optional trailing double quote *independently* (they need not form a
matching pair), then likewise one optional leading and trailing
single quote, then collapses each `\x` escape to `x`. -/
theorem c6_unescape_amended (s : List Char) :
    unescape s = unescapeAmendedSpec s := by
  unfold unescape unescapeAmendedSpec
  rw [unescapeChars_eq_specEsc]
  rw [strip_eq_indep, strip_eq_indep]

/-! ## C7: choice followed by `text "$selected"` -/

/-- C7 (counterexample): the second step returns the text body
verbatim — `Text(None, "$selected")` — because `step` performs no
variable resolution on text bodies; it does not return
`Text(None, "1")`. -/
theorem c7_text_not_resolved_counterexample :
    c7run = some (.Choice ["A", "B", "C"],
      .Text none "$selected", some "1") ∧
    (StepResult.Text none "$selected") ≠ .Text none "1" := by
  refine ⟨by decide, by decide⟩

/-- C7 (amended): for `choice A|B|C` then `text "$selected"`, the
first step returns `Choice(["A","B","C"])` and the second — with no
intervening `set_choice` — returns `Text(None, "$selected")`: the
body is emitted verbatim, while `memory["selected"][0]` does hold the
default `"1"`. -/
theorem c7_choice_then_default_amended :
    c7run = some (.Choice ["A", "B", "C"],
      .Text none "$selected", some "1") := by
  decide

/-! ## C4: `if` with no matching `fi` -/

/-- C4 (counterexample): compiling `if $x == 1` with no `fi` is
accepted, but the emitted Branch at pc 1 carries `else_pc = 1` — the
pc of the Branch itself — not 2, the pc of the line immediately after
the `if`. -/
theorem c4_else_pc_counterexample :
    compile ["setvar x 1", "if $x == 1", "text a"] =
      some ⟨[.setvar ⟨false, "x", none⟩ "1",
             .branch ⟨true, "x", none⟩ .equal "1" 1,
             .text none "a"]⟩ ∧
    (1 : Nat) ≠ 2 := by
  refine ⟨by decide, by decide⟩

/-- C4 (amended): an `if` with no matching `fi` is accepted, but the
emitted Branch's `else_pc` equals the pc of the Branch itself (the
placeholder is the code length *before* the emit), so a false
condition re-executes the Branch with unchanged state instead of
skipping nothing. -/
theorem c4_if_without_fi_amended :
    (∀ e : Emitter,
      compileLine e "if $x == 1".data =
        some (e.begin_branch.emit
          (.branch ⟨true, "x", none⟩ .equal "1" e.code.length)) ∧
      (e.begin_branch.emit
          (.branch ⟨true, "x", none⟩ .equal "1" e.code.length)).code.get?
          e.code.length =
        some (.branch ⟨true, "x", none⟩ .equal "1" e.code.length)) ∧
    (∀ (st : EngineState) (sc : Script) (lhs : VarOrConst) (op : Operator)
        (rhs : String) (v : String),
      lookupScript st.scripts st.current_script = some sc →
      sc.code.get? st.pc = some (.branch lhs op rhs st.pc) →
      get_var st.memory lhs = some v →
      evalOp op v rhs = false →
      step st = some (.Continue, st)) := by
  constructor
  · intro e
    refine ⟨rfl, ?_⟩
    simp [Emitter.emit, Emitter.begin_branch]
  · intro st sc lhs op rhs v hsc hi hv hfalse
    unfold step
    simp only [hsc, hi, hv, hfalse]
    rfl

theorem c4_if_without_fi_amended_witness :
    compileLine Emitter.new "if $x == 1".data =
      some (Emitter.new.begin_branch.emit
        (.branch ⟨true, "x", none⟩ .equal "1" 0)) ∧
    step c4st = some (.Continue, c4st) := by
  have h1 := (c4_if_without_fi_amended.1 Emitter.new).1
  have h2 := c4_if_without_fi_amended.2 c4st
    ⟨[.branch ⟨true, "x", none⟩ .equal "1" 0, .text none "a"]⟩
    ⟨true, "x", none⟩ .equal "1" "2" (by decide) (by decide) (by decide)
    (by decide)
  exact ⟨h1, h2⟩

/-! ## C2: compiled-script offset invariant -/

theorem branchBound_mono {len len2 : Nat} (h : len ≤ len2) {i : Instr}
    (hb : branchBound len i) : branchBound len2 i := by
  cases i <;> first
    | (simp only [branchBound] at hb ⊢; omega)
    | trivial

theorem EmInv_new : EmInv Emitter.new := by
  constructor
  · intro l n h
    simp [lookupLabel, Emitter.new, List.find?] at h
  · intro i hi
    simp [Emitter.new] at hi

theorem EmInv_emit {e : Emitter} (h : EmInv e) {i : Instr}
    (hb : branchBound (e.code.length + 1) i) : EmInv (e.emit i) := by
  constructor
  · intro l n hl
    have := h.1 l n hl
    simp only [Emitter.emit, List.length_append, List.length_cons,
      List.length_nil]
    omega
  · intro j hj
    simp only [Emitter.emit, List.mem_append, List.mem_singleton] at hj
    simp only [Emitter.emit, List.length_append, List.length_cons,
      List.length_nil]
    rcases hj with hj | hj
    · exact branchBound_mono (by omega) (h.2 j hj)
    · subst hj
      exact branchBound_mono (by omega) hb

theorem EmInv_begin_branch {e : Emitter} (h : EmInv e) :
    EmInv e.begin_branch := h

theorem EmInv_end_branch {e e1 : Emitter} (h : EmInv e)
    (hc : e.end_branch = some e1) : EmInv e1 := by
  unfold Emitter.end_branch at hc
  split at hc
  · exact absurd hc (by simp)
  · rename_i i hlb
    split at hc
    · rename_i lhs op rhs t hget
      simp only [Option.some.injEq] at hc
      subst hc
      constructor
      · intro l n hl
        have := h.1 l n hl
        simpa [List.length_set] using this
      · intro j hj
        simp only [List.length_set]
        simp only at hj
        rcases List.mem_or_eq_of_mem_set hj with hj | hj
        · exact h.2 j hj
        · subst hj
          simp [branchBound]
    · exact absurd hc (by simp)

theorem lookupLabel_cons (l l2 : Label) (k : Nat) (labels : List (Label × Nat)) :
    lookupLabel ((l, k) :: labels) l2 =
      if l = l2 then some k else lookupLabel labels l2 := by
  simp only [lookupLabel, List.find?]
  by_cases hll : l = l2
  · simp [hll]
  · simp [hll]

theorem EmInv_make_label {e : Emitter} (h : EmInv e) (l : Label) :
    EmInv (e.make_label l) := by
  constructor
  · intro l2 n hl
    rw [show (e.make_label l).labels = (l, e.code.length) :: e.labels from rfl,
      lookupLabel_cons] at hl
    by_cases hll : l = l2
    · rw [if_pos hll] at hl
      simp only [Option.some.injEq] at hl
      subst hl
      exact Nat.le_refl _
    · rw [if_neg hll] at hl
      exact h.1 l2 n hl
  · exact h.2

theorem EmInv_compileLine {e e1 : Emitter} {line : List Char}
    (h : EmInv e) (hc : compileLine e line = some e1) : EmInv e1 := by
  unfold compileLine at hc
  split at hc
  · exact absurd hc (by simp)
  rename_i x w rest heq
  by_cases h1 : w = "cleartext"
  case pos =>
    rw [if_pos h1] at hc
    simp only [Option.some.injEq] at hc
    subst hc
    exact EmInv_emit h (by simp [branchBound])
  rw [if_neg h1] at hc
  by_cases h2 : w = "gsetvar"
  case pos =>
    rw [if_pos h2] at hc
    split at hc
    · split at hc
      · split at hc
        · simp only [Option.some.injEq] at hc
          subst hc
          exact EmInv_emit h (by simp [branchBound])
        · exact absurd hc (by simp)
      · exact absurd hc (by simp)
    · exact absurd hc (by simp)
  rw [if_neg h2] at hc
  by_cases h3 : w = "setvar"
  case pos =>
    rw [if_pos h3] at hc
    split at hc
    · split at hc
      · split at hc
        · simp only [Option.some.injEq] at hc
          subst hc
          exact EmInv_emit h (by simp [branchBound])
        · exact absurd hc (by simp)
      · exact absurd hc (by simp)
    · split at hc
      · simp only [Option.some.injEq] at hc
        subst hc
        exact EmInv_emit h (by simp [branchBound])
      · exact absurd hc (by simp)
    · exact absurd hc (by simp)
  rw [if_neg h3] at hc
  by_cases h4 : w = "bgload"
  case pos =>
    rw [if_pos h4] at hc
    split at hc
    · split at hc
      · simp only [Option.some.injEq] at hc
        subst hc
        exact EmInv_emit h (by simp [branchBound])
      · exact absurd hc (by simp)
    · split at hc
      · simp only [Option.some.injEq] at hc
        subst hc
        exact EmInv_emit h (by simp [branchBound])
      · exact absurd hc (by simp)
    · exact absurd hc (by simp)
  rw [if_neg h4] at hc
  by_cases h5 : w = "setimg"
  case pos =>
    rw [if_pos h5] at hc
    split at hc
    · split at hc
      · simp only [Option.some.injEq] at hc
        subst hc
        exact EmInv_emit h (by simp [branchBound])
      · exact absurd hc (by simp)
    · exact absurd hc (by simp)
  rw [if_neg h5] at hc
  by_cases h6 : w = "delay"
  case pos =>
    rw [if_pos h6] at hc
    split at hc
    · split at hc
      · simp only [Option.some.injEq] at hc
        subst hc
        exact EmInv_emit h (by simp [branchBound])
      · exact absurd hc (by simp)
    · exact absurd hc (by simp)
  rw [if_neg h6] at hc
  by_cases h7 : w = "if"
  case pos =>
    rw [if_pos h7] at hc
    split at hc
    · split at hc
      · simp only [Option.some.injEq] at hc
        subst hc
        exact EmInv_emit (EmInv_begin_branch h)
          (by simp only [branchBound, Emitter.begin_branch]; omega)
      · exact absurd hc (by simp)
    · exact absurd hc (by simp)
  rw [if_neg h7] at hc
  by_cases h8 : w = "fi"
  case pos =>
    rw [if_pos h8] at hc
    split at hc
    · exact EmInv_end_branch h hc
    · exact absurd hc (by simp)
  rw [if_neg h8] at hc
  by_cases h9 : w = "text"
  case pos =>
    rw [if_pos h9] at hc
    split at hc
    simp only [Option.some.injEq] at hc
    subst hc
    exact EmInv_emit h (by simp [branchBound])
  rw [if_neg h9] at hc
  by_cases h10 : w = "goto"
  case pos =>
    rw [if_pos h10] at hc
    split at hc
    · split at hc
      · simp only [Option.some.injEq] at hc
        subst hc
        exact EmInv_emit h (by simp [branchBound])
      · exact absurd hc (by simp)
    · exact absurd hc (by simp)
  rw [if_neg h10] at hc
  by_cases h11 : w = "label"
  case pos =>
    rw [if_pos h11] at hc
    split at hc
    · split at hc
      · simp only [Option.some.injEq] at hc
        subst hc
        exact EmInv_make_label h _
      · exact absurd hc (by simp)
    · exact absurd hc (by simp)
  rw [if_neg h11] at hc
  by_cases h12 : w = "sound"
  case pos =>
    rw [if_pos h12] at hc
    split at hc
    · simp only [Option.some.injEq] at hc
      subst hc
      exact EmInv_emit h (by simp [branchBound])
    · split at hc
      · simp only [Option.some.injEq] at hc
        subst hc
        exact EmInv_emit h (by simp [branchBound])
      · exact absurd hc (by simp)
    · exact absurd hc (by simp)
  rw [if_neg h12] at hc
  by_cases h13 : w = "music"
  case pos =>
    rw [if_pos h13] at hc
    split at hc
    · simp only [Option.some.injEq] at hc
      subst hc
      exact EmInv_emit h (by simp [branchBound])
    · exact absurd hc (by simp)
  rw [if_neg h13] at hc
  by_cases h14 : w = "choice"
  case pos =>
    rw [if_pos h14] at hc
    split at hc
    · simp only [Option.some.injEq] at hc
      subst hc
      exact EmInv_emit h (by simp [branchBound])
    · exact absurd hc (by simp)
  rw [if_neg h14] at hc
  by_cases h15 : w = "jump"
  case pos =>
    rw [if_pos h15] at hc
    split at hc
    · simp only [Option.some.injEq] at hc
      subst hc
      exact EmInv_emit h (by simp [branchBound])
    · exact absurd hc (by simp)
  rw [if_neg h15] at hc
  exact absurd hc (by simp)

theorem EmInv_compileLines :
    ∀ (ls : List String) (e e1 : Emitter), EmInv e →
      compileLines e ls = some e1 → EmInv e1 := by
  intro ls
  induction ls with
  | nil =>
    intro e e1 h hc
    simp only [compileLines, Option.some.injEq] at hc
    subst hc
    exact h
  | cons l tl ih =>
    intro e e1 h hc
    simp only [compileLines] at hc
    split at hc
    · exact ih e e1 h hc
    · split at hc
      · rename_i e2 h2
        exact ih e2 e1 (EmInv_compileLine h h2) hc
      · exact absurd hc (by simp)

theorem into_script_ok {e : Emitter} {sc : Script} (h : EmInv e)
    (hc : e.into_script = some sc) :
    sc.code.length = e.code.length ∧ ∀ i ∈ sc.code, instrOk sc.code.length i := by
  unfold Emitter.into_script at hc
  cases hm : mapOption (resolveInstr e.labels) e.code with
  | none => rw [hm] at hc; exact absurd hc (by simp)
  | some l2 =>
    rw [hm] at hc
    simp only [Option.map_some', Option.some.injEq] at hc
    subst hc
    have hlen : l2.length = e.code.length := mapOption_length hm
    refine ⟨hlen, ?_⟩
    intro i hi
    obtain ⟨x, hx, hres⟩ := mapOption_mem hm i hi
    cases x with
    | goto target =>
      have hres2 : (match lookupLabel e.labels target with
        | some n => some (Instr.goto (.offset n))
        | none => none) = some i := hres
      cases hn : lookupLabel e.labels target with
      | none => rw [hn] at hres2; exact absurd hres2 (by simp)
      | some n =>
        rw [hn] at hres2
        have hi2 : Instr.goto (.offset n) = i := by injection hres2
        subst hi2
        simp only [instrOk, hlen]
        exact h.1 target n hn
    | branch lhs op rhs t =>
      have hi2 : Instr.branch lhs op rhs t = i := by injection hres
      subst hi2
      simp only [instrOk, hlen]
      exact h.2 _ hx
    | cleartext =>
      have hi2 : Instr.cleartext = i := by injection hres
      subst hi2; trivial
    | setvar v val =>
      have hi2 : Instr.setvar v val = i := by injection hres
      subst hi2; trivial
    | gsetvar v val =>
      have hi2 : Instr.gsetvar v val = i := by injection hres
      subst hi2; trivial
    | bgload v t =>
      have hi2 : Instr.bgload v t = i := by injection hres
      subst hi2; trivial
    | setimg v x y =>
      have hi2 : Instr.setimg v x y = i := by injection hres
      subst hi2; trivial
    | delay u =>
      have hi2 : Instr.delay u = i := by injection hres
      subst hi2; trivial
    | text who what =>
      have hi2 : Instr.text who what = i := by injection hres
      subst hi2; trivial
    | sound f a =>
      have hi2 : Instr.sound f a = i := by injection hres
      subst hi2; trivial
    | music f =>
      have hi2 : Instr.music f = i := by injection hres
      subst hi2; trivial
    | choice alts =>
      have hi2 : Instr.choice alts = i := by injection hres
      subst hi2; trivial
    | jump f =>
      have hi2 : Instr.jump f = i := by injection hres
      subst hi2; trivial

/-- C2 (amended): in every compiled Script, every `Goto` holds an
`Offset` label whose value lies within `[0, code.len()]` (inclusive:
a label recorded at code-end resolves to `code.len()` itself), every
`Branch.else_pc` lies within `[0, code.len()]`, and stepping a `Goto`
whose offset is `code.len()` makes the subsequent `step` return
`Exit`. -/
theorem c2_compiled_offsets_in_range (lines : List String) (sc : Script)
    (h : compile lines = some sc) :
    (∀ i ∈ sc.code, instrOk sc.code.length i) ∧
    (∀ (st : EngineState) (n : Nat),
      lookupScript st.scripts st.current_script = some sc →
      sc.code.get? st.pc = some (.goto (.offset n)) →
      step st = some (.Continue, { st with pc := n }) ∧
      (n = sc.code.length →
        step { st with pc := n } = some (.Exit, { st with pc := n }))) := by
  constructor
  · unfold compile at h
    split at h
    · rename_i e he
      exact (into_script_ok (EmInv_compileLines lines Emitter.new e EmInv_new he) h).2
    · exact absurd h (by simp)
  · intro st n hsc hi
    constructor
    · unfold step
      simp only [hsc, hi]
    · intro hn
      unfold step
      have hsc2 : lookupScript (EngineState.scripts { st with pc := n })
          (EngineState.current_script { st with pc := n }) = some sc := hsc
      simp only [hsc2]
      have hget : sc.code.get? n = none := by
        rw [List.get?_eq_none]
        omega
      simp only [hget]

/-- C2 (counterexample): the two-line script `goto x` / `label x`
compiles to one instruction whose `Goto` offset is `1 = code.len()`,
which is not within `[0, code.len())`. -/
theorem c2_goto_offset_at_code_end_counterexample :
    compile ["goto x", "label x"] = some c2sc ∧
    Instr.goto (.offset 1) ∈ c2sc.code ∧
    ¬ (1 < c2sc.code.length) := by
  refine ⟨by decide, by decide, by decide⟩

theorem c2_compiled_offsets_in_range_witness :
    instrOk c2sc.code.length (.goto (.offset 1)) ∧
    step c2st = some (.Continue, { c2st with pc := 1 }) ∧
    step { c2st with pc := 1 } = some (.Exit, { c2st with pc := 1 }) := by
  have h := c2_compiled_offsets_in_range ["goto x", "label x"] c2sc (by decide)
  have h1 := h.1 (.goto (.offset 1)) (by decide)
  have h2 := h.2 c2st 1 (by decide) (by decide)
  exact ⟨h1, h2.1, h2.2 (by decide)⟩

/-! ## C1: save/load round trip -/

theorem step_obsEq {a b : EngineState} (h : obsEq a b) :
    (step a = none ∧ step b = none) ∨
    ∃ r a1 b1, step a = some (r, a1) ∧ step b = some (r, b1) ∧ obsEq a1 b1 := by
  obtain ⟨hs, hm, hp, hc, hd⟩ := h
  have hm2 : b.memory = a.memory := hm.symm
  have hp2 : b.pc = a.pc := hp.symm
  have hd2 : b.directory = a.directory := hd.symm
  unfold step
  cases hA : lookupScript a.scripts a.current_script with
  | none =>
    have hB : lookupScript b.scripts b.current_script = none := by
      rw [← hs, hA]
    simp only [hA, hB]
    exact Or.inl ⟨by trivial, by trivial⟩
  | some sc =>
    have hB : lookupScript b.scripts b.current_script = some sc := by
      rw [← hs, hA]
    simp only [hA, hB, hm2, hp2, hd2]
    cases hI : sc.code.get? a.pc with
    | none =>
      simp only [hI]
      exact Or.inr ⟨.Exit, a, b, rfl, rfl, hs, hm, hp, hc, hd⟩
    | some i =>
      simp only [hI]
      cases i with
      | cleartext => exact Or.inr ⟨_, _, _, rfl, rfl, hs, rfl, rfl, hc, rfl⟩
      | gsetvar v val =>
        cases hins : insertVar a.memory v val with
        | none => simp only [hins]; exact Or.inl ⟨by trivial, by trivial⟩
        | some m =>
          simp only [hins]
          exact Or.inr ⟨_, _, _, rfl, rfl, hs, rfl, rfl, hc, rfl⟩
      | setvar v val =>
        cases hins : insertVar a.memory v val with
        | none => simp only [hins]; exact Or.inl ⟨by trivial, by trivial⟩
        | some m =>
          simp only [hins]
          exact Or.inr ⟨_, _, _, rfl, rfl, hs, rfl, rfl, hc, rfl⟩
      | bgload f t =>
        cases hv : get_var a.memory f with
        | none => simp only [hv]; exact Or.inl ⟨by trivial, by trivial⟩
        | some name =>
          simp only [hv]
          exact Or.inr ⟨_, _, _, rfl, rfl, hs, rfl, rfl, hc, rfl⟩
      | setimg f x y =>
        cases hv : get_var a.memory f with
        | none => simp only [hv]; exact Or.inl ⟨by trivial, by trivial⟩
        | some name =>
          simp only [hv]
          by_cases hname : f.name = "DATEIMAGE"
          · simp only [if_pos hname]
            exact Or.inr ⟨_, _, _, rfl, rfl, hs, rfl, rfl, hc, rfl⟩
          · simp only [if_neg hname]
            exact Or.inr ⟨_, _, _, rfl, rfl, hs, rfl, rfl, hc, rfl⟩
      | delay u => exact Or.inr ⟨_, _, _, rfl, rfl, hs, rfl, rfl, hc, rfl⟩
      | branch lhs op rhs elsePc =>
        cases hv : get_var a.memory lhs with
        | none => simp only [hv]; exact Or.inl ⟨by trivial, by trivial⟩
        | some v =>
          simp only [hv]
          exact Or.inr ⟨_, _, _, rfl, rfl, hs, rfl, rfl, hc, rfl⟩
      | text who what => exact Or.inr ⟨_, _, _, rfl, rfl, hs, rfl, rfl, hc, rfl⟩
      | goto target =>
        cases target with
        | offset n => exact Or.inr ⟨_, _, _, rfl, rfl, hs, rfl, rfl, hc, rfl⟩
        | indexed k => exact Or.inl ⟨by trivial, by trivial⟩
        | named s => exact Or.inl ⟨by trivial, by trivial⟩
      | sound f arg => exact Or.inr ⟨_, _, _, rfl, rfl, hs, rfl, rfl, hc, rfl⟩
      | music f => exact Or.inr ⟨_, _, _, rfl, rfl, hs, rfl, rfl, hc, rfl⟩
      | choice alts =>
        have hrsc : ∀ st : EngineState, st.run_set_choice 0 =
            some { st with
              memory := memInsert st.memory "selected" 0 (toString (0 + 1)) } :=
          fun _ => rfl
        simp only [hrsc]
        cases hmo : mapOption
            (get_var (memInsert a.memory "selected" 0 (toString (0 + 1)))) alts with
        | none => simp only [hmo]; exact Or.inl ⟨by trivial, by trivial⟩
        | some resolved =>
          simp only [hmo]
          exact Or.inr ⟨_, _, _, rfl, rfl, hs, rfl, rfl, hc, rfl⟩
      | jump f => exact Or.inr ⟨_, _, _, rfl, rfl, hs, hm, hp, hc, hd⟩

theorem runN_obsEq : ∀ (n : Nat) {a b : EngineState}, obsEq a b →
    (runN n a = none ∧ runN n b = none) ∨
    ∃ rs a1 b1, runN n a = some (rs, a1) ∧ runN n b = some (rs, b1) ∧
      obsEq a1 b1 := by
  intro n
  induction n with
  | zero => intro a b h; exact Or.inr ⟨[], a, b, rfl, rfl, h⟩
  | succ n ih =>
    intro a b h
    rcases step_obsEq h with ⟨ha, hb⟩ | ⟨r, a1, b1, ha, hb, h1⟩
    · simp only [runN, ha, hb]
      exact Or.inl ⟨by trivial, by trivial⟩
    · simp only [runN, ha, hb]
      rcases ih h1 with ⟨ha2, hb2⟩ | ⟨rs, a2, b2, ha2, hb2, h2⟩
      · simp only [ha2, hb2]
        exact Or.inl ⟨by trivial, by trivial⟩
      · simp only [ha2, hb2]
        exact Or.inr ⟨r :: rs, a2, b2, rfl, rfl, h2⟩

theorem results_obsEq {a b : EngineState} (h : obsEq a b) (n : Nat) :
    results n a = results n b := by
  rcases runN_obsEq n h with ⟨h1, h2⟩ | ⟨rs, a1, b1, h1, h2, _⟩ <;>
    simp [results, h1, h2]

theorem lookupScript_cons_self (name : String) (sc : Script)
    (ss : List (String × Script)) :
    lookupScript ((name, sc) :: ss) name = some sc := by
  simp [lookupScript, List.find?]

/-- C1 (amended): for a state `st` suspended at a `Text` (the `Text`
instruction sits at `pc_to_save` and `pc = pc_to_save + 1`), saving
and loading into a fresh engine over the same directory succeeds, the
replay list is the one synthesized from the saved mirrors, and the
*next step re-emits the saved `Text` itself* — not the instruction
that followed it — after which every subsequent run of steps produces
StepResults identical to stepping from `st`: the original
continuation is reproduced with a one-step delay. -/
theorem c1_reload_reemits_saved_text (fs : FS) (st e0 : EngineState)
    (who : Option String) (what : String) (lines : List String) (sc : Script)
    (hfs : fs (st.directory ++ ["Scripts", st.current_script]) = some lines)
    (hcomp : compile lines = some sc)
    (hlook : lookupScript st.scripts st.current_script = some sc)
    (htext : sc.code.get? st.pc_to_save = some (.text who what))
    (hpc : st.pc = st.pc_to_save + 1)
    (he0 : EngineState.new fs st.directory = some e0) :
    EngineState.load fs e0 (EngineState.save st) =
      some (replayOf (EngineState.save st), loadedAfterSave e0 st sc) ∧
    step (loadedAfterSave e0 st sc) =
      some (.Text who what, steppedAfterLoad e0 st sc) ∧
    ∀ n, results n (steppedAfterLoad e0 st sc) = results n st := by
  obtain ⟨l0, s0, hf0, hc0, he0eq⟩ := run_load_script_spec he0
  have hdir : e0.directory = st.directory := by rw [he0eq]
  have hrun : EngineState.run_load_script fs e0 st.current_script =
      some { e0 with
        scripts := (st.current_script, sc) :: e0.scripts
        current_script := st.current_script
        pc := 0 } := by
    unfold EngineState.run_load_script
    rw [hdir]
    simp only [hfs, hcomp]
  refine ⟨?_, ?_, ?_⟩
  · unfold EngineState.load
    have hcur : (EngineState.save st).current_script = st.current_script := rfl
    rw [hcur, hrun]
    rfl
  · unfold step
    rw [show (loadedAfterSave e0 st sc).current_script = st.current_script
        from rfl,
      show (loadedAfterSave e0 st sc).scripts =
        (st.current_script, sc) :: e0.scripts from rfl,
      lookupScript_cons_self]
    simp only [show (loadedAfterSave e0 st sc).pc = st.pc_to_save from rfl,
      htext]
    rfl
  · have hobs : obsEq (steppedAfterLoad e0 st sc) st := by
      refine ⟨?_, rfl, hpc.symm, rfl, ?_⟩
      · rw [show (steppedAfterLoad e0 st sc).scripts =
            (st.current_script, sc) :: e0.scripts from rfl,
          show (steppedAfterLoad e0 st sc).current_script =
            st.current_script from rfl,
          lookupScript_cons_self, hlook]
      · rw [show (steppedAfterLoad e0 st sc).directory = e0.directory from rfl,
          hdir]
    exact results_obsEq hobs

/-- C1 (counterexample): after saving upon the first `Text` of
`text a` / `text b` and reloading into a fresh engine with the same
directory, the next step returns `Text(None, "a")` — the saved `Text`
again — whereas the instruction that followed the saved `Text` in the
original run is `Text(None, "b")`. -/
theorem c1_save_load_counterexample :
    c1run = some ([], .Text none "a", .Text none "b") ∧
    (StepResult.Text none "a") ≠ .Text none "b" := by
  refine ⟨by decide, by decide⟩

theorem c1_reload_reemits_saved_text_witness :
    EngineState.load c1fs c1e0 (EngineState.save c1e1) =
      some (replayOf (EngineState.save c1e1), loadedAfterSave c1e0 c1e1 c1sc) ∧
    step (loadedAfterSave c1e0 c1e1 c1sc) =
      some (.Text none "a", steppedAfterLoad c1e0 c1e1 c1sc) ∧
    results 2 (steppedAfterLoad c1e0 c1e1 c1sc) = results 2 c1e1 := by
  have h := c1_reload_reemits_saved_text c1fs c1e1 c1e0 none "a"
    ["text a", "text b"] c1sc (by decide) (by decide) (by decide)
    (by decide) (by decide) (by decide)
  exact ⟨h.1, h.2.1, h.2.2 2⟩

end VN
